import Mathlib

/-!
Verification of the video-slideshow-generator's timeline synthesis,
transition selection, particle overlay simulation and segment rendering,
as a shallow embedding of the Python sources in `src/`.

Real-valued quantities (durations, weights, particle coordinates) are
modelled over `ℚ`; Python's `int(...)` truncation is modelled by
`pyInt`, and Python's banker's rounding `round(...)` by `pyRound`.
Randomness (`random.choice`, `random.choices`, `random.uniform`) is
modelled by oracle parameters: each draw reads an arbitrary value from
an oracle function, so every theorem quantifies over all possible
random outcomes.
-/

/-- Python `int(q)`: truncation toward zero. -/
def pyInt (q : ℚ) : ℤ :=
  if 0 ≤ q then ⌊q⌋ else ⌈q⌉

/-- Python 3 `round(q)`: round half to even (banker's rounding).
Used only to state the spec's `round(duration × fps)` frame count. -/
def pyRound (q : ℚ) : ℤ :=
  let f := ⌊q⌋
  let frac := q - f
  if frac > 1/2 then f + 1
  else if frac < 1/2 then f
  else if f % 2 = 0 then f else f + 1

/-! ## Timing calculator (`src/timing_calculator.py`) -/

/-- The timing configuration fields read in `TimingCalculator.__init__`. -/
structure TimingConfig where
  opening_part1_duration : ℚ
  opening_part2_duration : ℚ
  duration_per_image : ℚ
  min_closing_duration : ℚ
deriving DecidableEq

/-- The dictionary returned by `TimingCalculator.calculate_timings`. -/
structure Timings where
  opening_part1 : ℚ
  opening_part2 : ℚ
  image_duration : ℚ
  regular_images_total : ℚ
  closing : ℚ
  total_video : ℚ
  num_images : ℕ
deriving DecidableEq

/-- The log messages `calculate_timings` can emit on its branches. -/
inductive TimingLog where
  | closingBelowMinWarning
  | adjustedImageDurationInfo
  | cannotFitError
deriving DecidableEq

/-- `TimingCalculator.calculate_timings` (src/timing_calculator.py lines
43-115): computes the closing duration as the remaining audio time; if it
falls below the configured minimum, either shrinks the per-image duration
(when positive time remains for the images) or logs an error and clamps
the closing duration to the minimum. -/
def calculate_timings (audio_duration : ℚ) (cfg : TimingConfig)
    (num_regular_images : ℕ) : Timings × List TimingLog :=
  let regular_images_total := (num_regular_images : ℚ) * cfg.duration_per_image
  let closing_duration :=
    audio_duration - cfg.opening_part1_duration - cfg.opening_part2_duration
      - regular_images_total
  let result :=
    if closing_duration < cfg.min_closing_duration then
      let available_time :=
        audio_duration - cfg.opening_part1_duration - cfg.opening_part2_duration
          - cfg.min_closing_duration
      if 0 < available_time then
        let adjusted_image_duration := available_time / (num_regular_images : ℚ)
        ((adjusted_image_duration,
          (num_regular_images : ℚ) * adjusted_image_duration,
          cfg.min_closing_duration),
         [TimingLog.closingBelowMinWarning, TimingLog.adjustedImageDurationInfo])
      else
        ((cfg.duration_per_image, regular_images_total, cfg.min_closing_duration),
         [TimingLog.closingBelowMinWarning, TimingLog.cannotFitError])
    else
      ((cfg.duration_per_image, regular_images_total, closing_duration), [])
  let image_duration := result.1.1
  let regular_total := result.1.2.1
  let closing := result.1.2.2
  let total_video_duration :=
    cfg.opening_part1_duration + cfg.opening_part2_duration
      + regular_total + closing
  ({ opening_part1 := cfg.opening_part1_duration
     opening_part2 := cfg.opening_part2_duration
     image_duration := image_duration
     regular_images_total := regular_total
     closing := closing
     total_video := total_video_duration
     num_images := num_regular_images }, result.2)

/-- Whether the execution of `calculate_timings` reaches the statement
`adjusted_image_duration = available_time / num_regular_images`, the one
division by the image count in src/timing_calculator.py (line 79): it runs
exactly when the computed closing duration falls below the minimum and the
available time is positive. -/
def reachesImageCountDivision (audio_duration : ℚ) (cfg : TimingConfig)
    (num_regular_images : ℕ) : Bool :=
  let closing_duration :=
    audio_duration - cfg.opening_part1_duration - cfg.opening_part2_duration
      - (num_regular_images : ℚ) * cfg.duration_per_image
  let available_time :=
    audio_duration - cfg.opening_part1_duration - cfg.opening_part2_duration
      - cfg.min_closing_duration
  decide (closing_duration < cfg.min_closing_duration) &&
    decide (0 < available_time)

/-- C1: for a feasible input with `n ≥ 1` images, `calculate_timings`
computes `C = T - a1 - a2 - n·d0` and accepts `(d0, C)` when `C ≥ Cmin`;
otherwise, when `T - a1 - a2 - Cmin > 0`, it shrinks the per-image
duration to `(T - a1 - a2 - Cmin)/n` and clamps the closing duration to
`Cmin`; in both cases the returned `total_video` equals `T`. -/
theorem calculate_timings_feasible_total_matches_audio
    (audio_duration : ℚ) (cfg : TimingConfig) (n : ℕ) (hn : 1 ≤ n) :
    let C := audio_duration - cfg.opening_part1_duration
      - cfg.opening_part2_duration - (n : ℚ) * cfg.duration_per_image
    let avail := audio_duration - cfg.opening_part1_duration
      - cfg.opening_part2_duration - cfg.min_closing_duration
    let r := (calculate_timings audio_duration cfg n).1
    (cfg.min_closing_duration ≤ C →
      r.image_duration = cfg.duration_per_image ∧ r.closing = C ∧
        r.total_video = audio_duration) ∧
    (C < cfg.min_closing_duration → 0 < avail →
      r.image_duration = avail / (n : ℚ) ∧
        r.closing = cfg.min_closing_duration ∧
        r.total_video = audio_duration) := by
  intro C avail r
  have hn0 : (n : ℚ) ≠ 0 := Nat.cast_ne_zero.mpr (by omega)
  constructor
  · intro hC
    have hnot : ¬ (audio_duration - cfg.opening_part1_duration
        - cfg.opening_part2_duration - (n : ℚ) * cfg.duration_per_image
        < cfg.min_closing_duration) := not_lt.mpr hC
    refine ⟨?_, ?_, ?_⟩ <;>
      simp only [r, C, avail, calculate_timings, if_neg hnot] <;> ring
  · intro hC havail
    have hlt : (audio_duration - cfg.opening_part1_duration
        - cfg.opening_part2_duration - (n : ℚ) * cfg.duration_per_image
        < cfg.min_closing_duration) := hC
    have hkey : (n : ℚ) * ((audio_duration - cfg.opening_part1_duration
        - cfg.opening_part2_duration - cfg.min_closing_duration) / (n : ℚ))
        = audio_duration - cfg.opening_part1_duration
          - cfg.opening_part2_duration - cfg.min_closing_duration := by
      field_simp
    refine ⟨?_, ?_, ?_⟩ <;>
        simp only [r, C, avail, calculate_timings, if_pos hlt, if_pos havail]
    rw [hkey]
    ring

/-- Witness for C1: audio 30s, openings 3s and 6s, per-image 6s, minimum
closing 8s, 2 images: the closing comes out 9s ≥ 8s, and the total video
equals the audio duration. -/
theorem calculate_timings_feasible_total_matches_audio_witness :
    (calculate_timings 30 ⟨3, 6, 6, 8⟩ 2).1.closing = 9 ∧
      (calculate_timings 30 ⟨3, 6, 6, 8⟩ 2).1.total_video = 30 := by
  have h := calculate_timings_feasible_total_matches_audio 30 ⟨3, 6, 6, 8⟩ 2
    (by norm_num)
  have h1 := h.1 (by norm_num)
  exact ⟨by rw [h1.2.1]; norm_num, h1.2.2⟩

/-- C2 counterexample: audio 10s, openings 3s and 6s, per-image 6s,
minimum closing 8s, 2 images. The available time `10 - 3 - 6 - 8 = -7`
is non-positive, yet `calculate_timings` does not fail: it returns a
schedule with the closing clamped to the minimum, whose total (29s)
differs from the audio duration (10s); only an error log records the
problem. This refutes the claim that generation aborts with a failure
before rendering. -/
theorem calculate_timings_infeasible_not_aborted :
    (10 : ℚ) - 3 - 6 - 8 ≤ 0 ∧
    (calculate_timings 10 ⟨3, 6, 6, 8⟩ 2).1.closing = 8 ∧
    (calculate_timings 10 ⟨3, 6, 6, 8⟩ 2).1.total_video = 29 ∧
    (calculate_timings 10 ⟨3, 6, 6, 8⟩ 2).1.total_video ≠ 10 ∧
    TimingLog.cannotFitError ∈ (calculate_timings 10 ⟨3, 6, 6, 8⟩ 2).2 := by
  refine ⟨by norm_num, ?_, ?_, ?_, ?_⟩ <;> norm_num [calculate_timings]

/-- C2 amended: when the computed closing falls below the minimum and the
available time `T - a1 - a2 - Cmin` is non-positive, `calculate_timings`
logs a cannot-fit error but does not abort: it returns a schedule keeping
the nominal per-image duration with the closing clamped to `Cmin`, whose
`total_video = a1 + a2 + n·d0 + Cmin` strictly exceeds the audio
duration `T`. -/
theorem calculate_timings_infeasible_clamps_and_returns
    (audio_duration : ℚ) (cfg : TimingConfig) (n : ℕ)
    (hC : audio_duration - cfg.opening_part1_duration
      - cfg.opening_part2_duration - (n : ℚ) * cfg.duration_per_image
      < cfg.min_closing_duration)
    (havail : audio_duration - cfg.opening_part1_duration
      - cfg.opening_part2_duration - cfg.min_closing_duration ≤ 0) :
    let r := (calculate_timings audio_duration cfg n).1
    r.image_duration = cfg.duration_per_image ∧
    r.closing = cfg.min_closing_duration ∧
    r.total_video = cfg.opening_part1_duration + cfg.opening_part2_duration
      + (n : ℚ) * cfg.duration_per_image + cfg.min_closing_duration ∧
    audio_duration < r.total_video ∧
    TimingLog.cannotFitError ∈ (calculate_timings audio_duration cfg n).2 := by
  intro r
  have hnot : ¬ (0 < audio_duration - cfg.opening_part1_duration
      - cfg.opening_part2_duration - cfg.min_closing_duration) :=
    not_lt.mpr havail
  refine ⟨?_, ?_, ?_, ?_, ?_⟩ <;>
      simp only [r, calculate_timings, if_pos hC, if_neg hnot]
  · linarith
  · simp

/-- Witness for the amended C2: at audio 10s, config (3, 6, 6, 8), 2
images, the hypotheses hold and the clamped schedule's total is 29s. -/
theorem calculate_timings_infeasible_clamps_and_returns_witness :
    (calculate_timings 10 ⟨3, 6, 6, 8⟩ 2).1.total_video = 29 := by
  have h := calculate_timings_infeasible_clamps_and_returns 10 ⟨3, 6, 6, 8⟩ 2
    (by norm_num) (by norm_num)
  rw [h.2.2.1]
  norm_num

/-- C4: with `n = 0` regular images the division by the image count in
`calculate_timings` is never executed, for every audio duration and
timing configuration: with no images the closing duration equals the
whole remaining time, so whenever it falls below the minimum the
available time is negative and the guarded adjustment branch is not
taken. -/
theorem calculate_timings_no_division_by_zero_images
    (audio_duration : ℚ) (cfg : TimingConfig) :
    reachesImageCountDivision audio_duration cfg 0 = false := by
  simp only [reachesImageCountDivision, Nat.cast_zero, zero_mul,
    Bool.and_eq_false_eq_eq_false_or_eq_false, decide_eq_false_iff_not,
    not_lt]
  by_cases h : audio_duration - cfg.opening_part1_duration
      - cfg.opening_part2_duration - 0 < cfg.min_closing_duration
  · right
    linarith
  · left
    exact not_lt.mp h

/-! ## Transition selection (`src/transitions.py`) -/

/-- The three transition categories of `TransitionCategory`. -/
inductive TransitionCategory where
  | gentle
  | dynamic
  | artistic
deriving DecidableEq

/-- A transition definition with metadata (the `Transition` dataclass). -/
structure Transition where
  name : String
  category : TransitionCategory
  description : String
deriving DecidableEq

/-- `GENTLE_TRANSITIONS` (src/transitions.py lines 30-43). -/
def GENTLE_TRANSITIONS : List Transition :=
  [⟨"circlecrop", .gentle, "Soft circular crop reveal"⟩,
   ⟨"circleclose", .gentle, "Circular close transition"⟩,
   ⟨"circleopen", .gentle, "Circular open transition"⟩,
   ⟨"fade", .gentle, "Classic fade transition"⟩,
   ⟨"fadeblack", .gentle, "Fade through black"⟩,
   ⟨"fadewhite", .gentle, "Fade through white"⟩,
   ⟨"dissolve", .gentle, "Smooth dissolve"⟩,
   ⟨"pixelize", .gentle, "Subtle pixelize effect"⟩,
   ⟨"hblur", .gentle, "Horizontal blur transition"⟩,
   ⟨"vdslice", .gentle, "Vertical down slice transition"⟩,
   ⟨"fadegrays", .gentle, "Fade to grayscale transition"⟩,
   ⟨"fadefast", .gentle, "Fast fade transition"⟩]

/-- `DYNAMIC_TRANSITIONS` (src/transitions.py lines 45-56). -/
def DYNAMIC_TRANSITIONS : List Transition :=
  [⟨"smoothleft", .dynamic, "Smooth left slide"⟩,
   ⟨"smoothright", .dynamic, "Smooth right slide"⟩,
   ⟨"smoothup", .dynamic, "Smooth upward slide"⟩,
   ⟨"smoothdown", .dynamic, "Smooth downward slide"⟩,
   ⟨"diagtl", .dynamic, "Diagonal top-left"⟩,
   ⟨"diagtr", .dynamic, "Diagonal top-right"⟩,
   ⟨"diagbl", .dynamic, "Diagonal bottom-left"⟩,
   ⟨"diagbr", .dynamic, "Diagonal bottom-right"⟩,
   ⟨"hlwind", .dynamic, "Horizontal left wind"⟩,
   ⟨"hrwind", .dynamic, "Horizontal right wind"⟩]

/-- `ARTISTIC_TRANSITIONS` (src/transitions.py lines 58-63). -/
def ARTISTIC_TRANSITIONS : List Transition :=
  [⟨"radial", .artistic, "Radial wipe transition"⟩,
   ⟨"zoomin", .artistic, "Zoom in transition"⟩,
   ⟨"squeezeh", .artistic, "Horizontal squeeze"⟩,
   ⟨"squeezev", .artistic, "Vertical squeeze"⟩]

/-- Python's `list(TransitionCategory)`: the enum members in definition
order. -/
def allCategories : List TransitionCategory :=
  [.gentle, .dynamic, .artistic]

/-- Model of `random.choice(l)`: an arbitrary draw selected by the oracle
value `k`; any element of `l` can be returned, and for non-empty `l` the
result is always an element of `l`. -/
def randChoice {α : Type} (l : List α) (dflt : α) (k : ℕ) : α :=
  l.getD (k % l.length) dflt

/-- Model of `random.choices(l, weights=ws)[0]`: the weights influence
only the draw's distribution, not which elements are possible when all
weights are admissible, so the draw is modelled like `randChoice` with
the oracle value `k` ranging over all indices; every theorem below
quantifies over `k`, covering every outcome the Python call can
produce. -/
def randWeightedChoice {α : Type} (l : List α) (ws : List ℚ) (dflt : α)
    (k : ℕ) : α :=
  l.getD ((k + ws.length * 0) % l.length) dflt

/-- The check `len(self.category_history) >= 3 and
len(set(self.category_history[-3:])) == 1` of `_select_category`: returns
the repeated category when the last three entries are identical. -/
def lastThreeSame (h : List TransitionCategory) : Option TransitionCategory :=
  if 3 ≤ h.length then
    match h.drop (h.length - 3) with
    | [a, b, c] => if a = b ∧ b = c then some a else none
    | _ => none
  else none

/-- `TransitionSelector._select_category` (src/transitions.py lines
159-202). `w` is the selector's `category_weights` dictionary (`none`
for a category not configured); `k` is the random oracle for this draw. -/
def select_category (w : TransitionCategory → Option ℚ)
    (category_history : List TransitionCategory) (k : ℕ) :
    TransitionCategory :=
  match lastThreeSame category_history with
  | some current_cat =>
    let available_cats := allCategories.filter
      (fun cat => cat ≠ current_cat ∧ (w cat).isSome)
    let ws := available_cats.map (fun cat => (w cat).getD 0)
    if available_cats = [] ∨ ws = [] ∨ ws.sum = 0 then
      let fallback_cats := allCategories.filter (fun cat => cat ≠ current_cat)
      if fallback_cats = [] then randChoice allCategories .gentle k
      else randChoice fallback_cats .gentle k
    else
      randWeightedChoice available_cats ws .gentle k
  | none =>
    let categories := allCategories.filter (fun cat => (w cat).isSome)
    let ws := categories.map (fun cat => (w cat).getD 0)
    if categories = [] ∨ ws = [] ∨ ws.sum = 0 then
      randChoice allCategories .gentle k
    else
      randWeightedChoice categories ws .gentle k

/-- The selector's mutable history (`self.history`,
`self.category_history`). -/
structure SelectorState where
  history : List String
  category_history : List TransitionCategory
deriving DecidableEq

/-- The transition pool built in `TransitionSelector.__init__` (lines
108-114): the first six gentle transitions in simple mode, all
transitions otherwise. -/
def selectorPool (simple_mode : Bool) : List Transition :=
  if simple_mode then GENTLE_TRANSITIONS.take 6
  else GENTLE_TRANSITIONS ++ DYNAMIC_TRANSITIONS ++ ARTISTIC_TRANSITIONS

/-- Lines 132-136 of `select_next`: the chosen category's transitions,
falling back to the whole pool when the category has none. -/
def categoryTransitions (simple_mode : Bool)
    (category : TransitionCategory) : List Transition :=
  let pool := selectorPool simple_mode
  let filtered := pool.filter (fun t => t.category = category)
  if filtered = [] then pool else filtered

/-- `self.history[-2:]`: the 2 most recently used transition names. -/
def recentNames (history : List String) : List String :=
  history.drop (history.length - 2)

/-- Line 139 of `select_next`: the category pool with the 2 most recent
names excluded. -/
def availableAfterExclusion (simple_mode : Bool)
    (category : TransitionCategory) (history : List String) :
    List Transition :=
  (categoryTransitions simple_mode category).filter
    (fun t => ¬ t.name ∈ recentNames history)

/-- `TransitionSelector.select_next` (src/transitions.py lines 121-157):
selects a category, filters its pool by the 2 most recent names (undoing
the exclusion if it empties the pool), draws a transition and appends it
to both histories. `k1`, `k2` are the random oracles of the two draws. -/
def select_next (w : TransitionCategory → Option ℚ) (simple_mode : Bool)
    (st : SelectorState) (k1 k2 : ℕ) : Transition × SelectorState :=
  let category := select_category w st.category_history k1
  let category_transitions := categoryTransitions simple_mode category
  let available := availableAfterExclusion simple_mode category st.history
  let available := if available = [] then category_transitions else available
  let transition := randChoice available ⟨"fade", .gentle, ""⟩ k2
  (transition,
   { history := st.history ++ [transition.name]
     category_history := st.category_history ++ [category] })

/-- The category histories produced by `m` successive calls to
`select_next`, driven by the oracle stream `ks`: call `m` appends the
category selected against the history of the first `m` calls. -/
def historyUpTo (w : TransitionCategory → Option ℚ) (ks : ℕ → ℕ) :
    ℕ → List TransitionCategory
  | 0 => []
  | m + 1 =>
    let h := historyUpTo w ks m
    h ++ [select_category w h (ks m)]

/-- The category selected by the `m`-th call to `select_next`. -/
def categoryAt (w : TransitionCategory → Option ℚ) (ks : ℕ → ℕ)
    (m : ℕ) : TransitionCategory :=
  select_category w (historyUpTo w ks m) (ks m)

/-- An element drawn by `randChoice` from a non-empty list belongs to
the list. -/
theorem randChoice_mem {α : Type} (l : List α) (dflt : α) (k : ℕ)
    (h : l ≠ []) : randChoice l dflt k ∈ l := by
  have hlt : k % l.length < l.length := Nat.mod_lt _ (List.length_pos.mpr h)
  rw [randChoice, List.getD_eq_getElem l dflt hlt]
  exact List.getElem_mem hlt

/-- An element drawn by `randWeightedChoice` from a non-empty list
belongs to the list. -/
theorem randWeightedChoice_mem {α : Type} (l : List α) (ws : List ℚ)
    (dflt : α) (k : ℕ) (h : l ≠ []) :
    randWeightedChoice l ws dflt k ∈ l := by
  have hlt : (k + ws.length * 0) % l.length < l.length :=
    Nat.mod_lt _ (List.length_pos.mpr h)
  rw [randWeightedChoice, List.getD_eq_getElem l dflt hlt]
  exact List.getElem_mem hlt

/-- A list of non-negative rationals containing a positive element has a
positive sum. -/
theorem sum_pos_of_mem_pos (l : List ℚ) (y : ℚ) (hnn : ∀ x ∈ l, 0 ≤ x)
    (hy : y ∈ l) (hpos : 0 < y) : 0 < l.sum := by
  induction l with
  | nil => simp at hy
  | cons a t ih =>
    rcases List.mem_cons.mp hy with rfl | hmem
    · have : 0 ≤ t.sum :=
        List.sum_nonneg (fun x hx => hnn x (List.mem_cons_of_mem _ hx))
      simp only [List.sum_cons]
      linarith
    · have ha : 0 ≤ a := hnn a (List.mem_cons_self _ _)
      have := ih (fun x hx => hnn x (List.mem_cons_of_mem _ hx)) hmem
      simp only [List.sum_cons]
      linarith

/-- Every category is a member of `allCategories`. -/
theorem mem_allCategories (c : TransitionCategory) : c ∈ allCategories := by
  cases c <;> decide

/-- When the last three selected categories are identical and at least
two categories carry positive weight, `_select_category` takes its
weighted force-switch branch and returns a configured category different
from the repeated one. -/
theorem select_category_switches (w : TransitionCategory → Option ℚ)
    (category_history : List TransitionCategory) (k : ℕ)
    (current_cat : TransitionCategory)
    (hsame : lastThreeSame category_history = some current_cat)
    (hnonneg : ∀ c q, w c = some q → 0 ≤ q)
    (htwo : ∃ c1 c2 q1 q2, c1 ≠ c2 ∧ w c1 = some q1 ∧ 0 < q1 ∧
      w c2 = some q2 ∧ 0 < q2) :
    select_category w category_history k ≠ current_cat ∧
      (w (select_category w category_history k)).isSome := by
  obtain ⟨c1, c2, q1, q2, hne, hw1, hq1, hw2, hq2⟩ := htwo
  -- one of the two positively weighted categories differs from the
  -- repeated one
  obtain ⟨c0, q0, hc0ne, hw0, hq0⟩ :
      ∃ c0 q0, c0 ≠ current_cat ∧ w c0 = some q0 ∧ 0 < q0 := by
    by_cases h1 : c1 = current_cat
    · exact ⟨c2, q2, by rw [← h1]; exact hne.symm, hw2, hq2⟩
    · exact ⟨c1, q1, h1, hw1, hq1⟩
  have hmem : c0 ∈ allCategories.filter
      (fun cat => cat ≠ current_cat ∧ (w cat).isSome) := by
    rw [List.mem_filter]
    refine ⟨mem_allCategories c0, ?_⟩
    simp [hc0ne, hw0]
  have havail : allCategories.filter
      (fun cat => cat ≠ current_cat ∧ (w cat).isSome) ≠ [] :=
    List.ne_nil_of_mem hmem
  have hwsmem : ((w c0).getD 0) ∈ (allCategories.filter
      (fun cat => cat ≠ current_cat ∧ (w cat).isSome)).map
        (fun cat => (w cat).getD 0) :=
    List.mem_map_of_mem _ hmem
  have hsumpos : 0 < ((allCategories.filter
      (fun cat => cat ≠ current_cat ∧ (w cat).isSome)).map
        (fun cat => (w cat).getD 0)).sum := by
    apply sum_pos_of_mem_pos _ ((w c0).getD 0)
    · intro x hx
      obtain ⟨cat, _, rfl⟩ := List.mem_map.mp hx
      cases hcat : w cat with
      | none => simp [hcat]
      | some q => simpa [hcat] using hnonneg cat q hcat
    · exact hwsmem
    · rw [hw0]
      simpa using hq0
  have hcond : ¬ (allCategories.filter
      (fun cat => cat ≠ current_cat ∧ (w cat).isSome) = [] ∨
      (allCategories.filter
        (fun cat => cat ≠ current_cat ∧ (w cat).isSome)).map
          (fun cat => (w cat).getD 0) = [] ∨
      ((allCategories.filter
        (fun cat => cat ≠ current_cat ∧ (w cat).isSome)).map
          (fun cat => (w cat).getD 0)).sum = 0) := by
    push_neg
    exact ⟨havail, fun h => absurd (h ▸ hwsmem) (List.not_mem_nil _),
      ne_of_gt hsumpos⟩
  have hresult : select_category w category_history k =
      randWeightedChoice (allCategories.filter
          (fun cat => cat ≠ current_cat ∧ (w cat).isSome))
        ((allCategories.filter
          (fun cat => cat ≠ current_cat ∧ (w cat).isSome)).map
            (fun cat => (w cat).getD 0)) .gentle k := by
    simp only [select_category, hsame, if_neg hcond]
  have hmem2 := hresult ▸ randWeightedChoice_mem _ _ _ k havail
  have := List.mem_filter.mp hmem2
  constructor
  · intro hEq
    have h2 := this.2
    rw [hEq] at h2
    simp at h2
  · have h2 := this.2
    simp only [decide_eq_true_eq, Bool.and_eq_true] at h2
    exact h2.2

/-- The category history of the runs is built by appending one selection
per call. -/
theorem historyUpTo_succ (w : TransitionCategory → Option ℚ) (ks : ℕ → ℕ)
    (m : ℕ) :
    historyUpTo w ks (m + 1)
      = historyUpTo w ks m ++ [categoryAt w ks m] := rfl

/-- The run's history has one entry per call. -/
theorem historyUpTo_length (w : TransitionCategory → Option ℚ)
    (ks : ℕ → ℕ) (m : ℕ) : (historyUpTo w ks m).length = m := by
  induction m with
  | zero => rfl
  | succ m ih => simp [historyUpTo_succ, ih]

/-- C5: given non-negative weights with at least two categories of
positive weight, no window of 4 consecutive category selections is
constant: when calls `i`, `i+1`, `i+2` all selected category `c`, call
`i+3` selects a different, configured category (the forced switch draws
only from other configured categories). -/
theorem transition_selector_no_four_same_categories
    (w : TransitionCategory → Option ℚ) (ks : ℕ → ℕ)
    (hnonneg : ∀ c q, w c = some q → 0 ≤ q)
    (htwo : ∃ c1 c2 q1 q2, c1 ≠ c2 ∧ w c1 = some q1 ∧ 0 < q1 ∧
      w c2 = some q2 ∧ 0 < q2)
    (i : ℕ) (c : TransitionCategory)
    (h0 : categoryAt w ks i = c)
    (h1 : categoryAt w ks (i + 1) = c)
    (h2 : categoryAt w ks (i + 2) = c) :
    categoryAt w ks (i + 3) ≠ c ∧
      (w (categoryAt w ks (i + 3))).isSome := by
  have hH : historyUpTo w ks (i + 3)
      = historyUpTo w ks i ++ [c, c, c] := by
    have e1 := historyUpTo_succ w ks i
    have e2 := historyUpTo_succ w ks (i + 1)
    have e3 := historyUpTo_succ w ks (i + 2)
    rw [h0] at e1
    rw [h1] at e2
    rw [h2] at e3
    rw [e3, e2, e1]
    simp
  have hsame : lastThreeSame (historyUpTo w ks (i + 3)) = some c := by
    rw [hH, lastThreeSame]
    have hlen : (historyUpTo w ks i ++ [c, c, c]).length = i + 3 := by
      simp [historyUpTo_length]
    rw [if_pos (by omega : 3 ≤ (historyUpTo w ks i ++ [c, c, c]).length)]
    have hdrop : (historyUpTo w ks i ++ [c, c, c]).drop
        ((historyUpTo w ks i ++ [c, c, c]).length - 3) = [c, c, c] := by
      rw [hlen]
      have : i + 3 - 3 = (historyUpTo w ks i).length := by
        simp [historyUpTo_length]
      rw [this]
      exact List.drop_left _ _
    rw [hdrop]
    simp
  exact select_category_switches w (historyUpTo w ks (i + 3)) (ks (i + 3))
    c hsame hnonneg htwo

/-- Witness for C5: with all three categories at weight 1 and the oracle
constantly 0, calls 0-2 select `gentle` and call 3 is forced to switch
to `dynamic`, a configured category. -/
theorem transition_selector_no_four_same_categories_witness :
    categoryAt (fun _ => some 1) (fun _ => 0) 3 ≠ .gentle ∧
      ((fun (_ : TransitionCategory) => some (1 : ℚ))
        (categoryAt (fun _ => some 1) (fun _ => 0) 3)).isSome := by
  apply transition_selector_no_four_same_categories
    (fun _ => some 1) (fun _ => 0)
    (fun c q h => by cases h; norm_num)
    ⟨.gentle, .dynamic, 1, 1, by decide, rfl, by norm_num, rfl, by norm_num⟩
    0 .gentle <;>
    norm_num [categoryAt, historyUpTo, select_category, lastThreeSame,
      allCategories, randChoice, randWeightedChoice]

/-- C6: `select_next` excludes the 2 most recently used transition names
from the chosen category's pool when the exclusion leaves the pool
non-empty (so the chosen transition's name differs from both, in
particular from the immediately preceding one), and ignores the
exclusion for the draw when it would empty the pool. -/
theorem select_next_excludes_recent_names
    (w : TransitionCategory → Option ℚ) (simple_mode : Bool)
    (st : SelectorState) (k1 k2 : ℕ) :
    (availableAfterExclusion simple_mode
        (select_category w st.category_history k1) st.history ≠ [] →
      (select_next w simple_mode st k1 k2).1 ∈ availableAfterExclusion
          simple_mode (select_category w st.category_history k1) st.history ∧
        ¬ (select_next w simple_mode st k1 k2).1.name
            ∈ recentNames st.history ∧
        ∀ lastName ∈ st.history.getLast?,
          (select_next w simple_mode st k1 k2).1.name ≠ lastName) ∧
    (availableAfterExclusion simple_mode
        (select_category w st.category_history k1) st.history = [] →
      (select_next w simple_mode st k1 k2).1 ∈ categoryTransitions
        simple_mode (select_category w st.category_history k1)) := by
  constructor
  · intro hne
    have hchosen : (select_next w simple_mode st k1 k2).1
        = randChoice (availableAfterExclusion simple_mode
            (select_category w st.category_history k1) st.history)
          ⟨"fade", .gentle, ""⟩ k2 := by
      simp only [select_next]
      rw [if_neg hne]
    have hmem : (select_next w simple_mode st k1 k2).1
        ∈ availableAfterExclusion simple_mode
          (select_category w st.category_history k1) st.history := by
      rw [hchosen]
      exact randChoice_mem _ _ _ hne
    have hfilter := List.mem_filter.mp hmem
    have hnotrecent : ¬ (select_next w simple_mode st k1 k2).1.name
        ∈ recentNames st.history := by
      have := hfilter.2
      simpa using this
    refine ⟨hmem, hnotrecent, ?_⟩
    intro lastName hlast hname
    apply hnotrecent
    rw [hname]
    -- the last name of the history is among the 2 most recent names
    have hhne : st.history ≠ [] := by
      intro h0
      rw [h0] at hlast
      simp at hlast
    have hdne : recentNames st.history ≠ [] := by
      rw [recentNames]
      intro hd
      have := congrArg List.length hd
      have hpos : 0 < st.history.length := List.length_pos.mpr hhne
      simp [List.length_drop] at this
      omega
    have hsplit := List.take_append_drop
      (st.history.length - 2) st.history
    have hglast : st.history.getLast? = (recentNames st.history).getLast? := by
      conv_lhs => rw [← hsplit]
      exact List.getLast?_append_of_ne_nil _ hdne
    rw [hglast] at hlast
    obtain ⟨_, rfl⟩ := List.mem_getLast?_eq_getLast hlast
    exact List.getLast_mem _
  · intro hempty
    have hchosen : (select_next w simple_mode st k1 k2).1
        = randChoice (categoryTransitions simple_mode
            (select_category w st.category_history k1))
          ⟨"fade", .gentle, ""⟩ k2 := by
      simp only [select_next]
      rw [if_pos hempty]
    rw [hchosen]
    apply randChoice_mem
    -- the category pool is never empty: it falls back to the whole pool
    rw [categoryTransitions]
    split
    · cases simple_mode <;> simp [selectorPool, GENTLE_TRANSITIONS,
        DYNAMIC_TRANSITIONS, ARTISTIC_TRANSITIONS]
    · assumption

/-- The selector's anniversary-overlay bookkeeping (`overlay_history`,
`overlay_count`). -/
structure OverlayState where
  overlay_history : List Bool
  overlay_count : ℕ
deriving DecidableEq

/-- `TransitionSelector.should_add_anniversary_overlay`
(src/transitions.py lines 230-274): line 242 is an unconditional
`return False` placed before all other logic (the comment marks the
feature "TEMPORARILY DISABLED due to FFmpeg filter parsing issues"), so
the anniversary-mode check, the history append and the counter update
below it are unreachable; the call returns `False` and leaves the state
untouched. `r` is the oracle for the `random.random()` draw the dead
code would make. -/
def should_add_anniversary_overlay (anniversary_mode : Bool)
    (st : OverlayState) (transition_index total_transitions : ℕ)
    (r : ℚ) : Bool × OverlayState :=
  (false, st)

/-- C10: for every transition index and total, whether or not
anniversary mode is enabled, `should_add_anniversary_overlay` returns
`False` and leaves `overlay_history` and `overlay_count` unchanged. -/
theorem should_add_anniversary_overlay_always_false
    (anniversary_mode : Bool) (st : OverlayState)
    (transition_index total_transitions : ℕ) (r : ℚ) :
    should_add_anniversary_overlay anniversary_mode st transition_index
        total_transitions r = (false, st) := rfl

/-! ## Particle overlay (`src/particle_overlay.py`)

The particle simulation's real arithmetic is modelled over `ℚ`;
`math.sin` is an abstract parameter `sin : ℚ → ℚ` (its values never
matter for the claims below), `math.pi` the rational value of the float
constant, and every `random.*` draw reads from an oracle, so theorems
quantify over all random outcomes. -/

/-- The `ParticleType` enum. `random` is the placeholder value that
`randomize_type` replaces by a concrete type per transition. -/
inductive ParticleType where
  | hearts
  | sparkles
  | petals
  | confetti
  | random
deriving DecidableEq

/-- The `Particle` dataclass. -/
structure Particle where
  x : ℚ
  y : ℚ
  size : ℚ
  alpha : ℚ
  rotation : ℚ
  speed_x : ℚ
  speed_y : ℚ
  color : ℕ × ℕ × ℕ
  life : ℚ
  max_life : ℚ
  rotation_speed : ℚ := 0
  phase : ℚ := 0
  base_alpha : ℚ := 0
deriving DecidableEq

/-- The fields of `ParticleOverlayGenerator` the simulation reads. -/
structure ParticleOverlayGenerator where
  width : ℕ
  height : ℕ
  fps : ℕ
  particle_type : ParticleType
  size_multiplier : ℚ
  particle_count : ℕ
  colors : List (ℕ × ℕ × ℕ)
deriving DecidableEq

/-- Model of `random.uniform(a, b)` at oracle value `r`. -/
def uniform (r a b : ℚ) : ℚ := a + r * (b - a)

/-- The value of the float constant `math.pi`. -/
def piQ : ℚ := 3.141592653589793

/-- `ParticleOverlayGenerator._spawn_particle` (src/particle_overlay.py
lines 281-349): a fresh particle of the generator's current type, with
type-specific size, lifetime, position, speed and alpha. `u` is this
spawn's oracle (one value per random draw); `total_frames` scales the
lifetime for hearts, petals and confetti. -/
def spawn_particle (g : ParticleOverlayGenerator) (u : ℕ → ℚ)
    (total_frames : ℚ) (initial : Bool) : Particle :=
  let color := g.colors.getD (pyInt (u 0)).toNat (0, 0, 0)
  let phase := uniform (u 1) 0 (2 * piQ)
  let sm := g.size_multiplier
  match g.particle_type with
  | .hearts =>
    let size := uniform (u 2) 30 85 * sm
    let life := uniform (u 3) (total_frames * 0.5) (total_frames * 0.9)
    let x := uniform (u 4) 0 (g.width : ℚ)
    let y := if initial then
        uniform (u 5) ((g.height : ℚ) * 0.3) ((g.height : ℚ) * 1.3)
      else (g.height : ℚ) + size
    let a := uniform (u 6) 0.6 0.95
    { x := x, y := y, size := size, alpha := a,
      rotation := uniform (u 7) (-15) 15,
      speed_x := 0, speed_y := -(uniform (u 8) 1.5 4.0),
      color := color, life := life, max_life := life,
      rotation_speed := uniform (u 9) (-0.5) 0.5,
      phase := phase, base_alpha := a }
  | .sparkles =>
    let size := uniform (u 2) 8 28 * sm
    let life := uniform (u 3) ((g.fps : ℚ) * 0.5) ((g.fps : ℚ) * 1.5)
    let a := uniform (u 4) 0.6 0.95
    { x := uniform (u 5) 0 (g.width : ℚ),
      y := uniform (u 6) 0 (g.height : ℚ),
      size := size, alpha := 0,
      rotation := uniform (u 7) 0 360,
      speed_x := 0, speed_y := 0,
      color := color, life := life, max_life := life,
      phase := phase, base_alpha := a }
  | .petals =>
    let size := uniform (u 2) 15 40 * sm
    let life := uniform (u 3) (total_frames * 0.4) (total_frames * 0.8)
    let x := uniform (u 4) (-size) ((g.width : ℚ) + size)
    let y := if initial then
        uniform (u 5) (-(g.height : ℚ) * 0.3) ((g.height : ℚ) * 0.7)
      else -size * 2
    let a := uniform (u 6) 0.5 0.85
    { x := x, y := y, size := size, alpha := a,
      rotation := uniform (u 7) 0 360,
      speed_x := uniform (u 8) 0.4 1.2,
      speed_y := uniform (u 9) 0.8 2.0,
      color := color, life := life, max_life := life,
      rotation_speed := uniform (u 10) (-2.0) 2.0,
      phase := phase, base_alpha := a }
  | _ =>
    -- Python's trailing `else` branch: CONFETTI (and the RANDOM
    -- placeholder, which falls through to it as well)
    let size := uniform (u 2) 6 18 * sm
    let life := uniform (u 3) (total_frames * 0.3) (total_frames * 0.7)
    let x := uniform (u 4) 0 (g.width : ℚ)
    let y := if initial then
        uniform (u 5) (-(g.height : ℚ) * 0.3) ((g.height : ℚ) * 0.5)
      else -size * 3
    let a := uniform (u 6) 0.6 0.95
    { x := x, y := y, size := size, alpha := a,
      rotation := uniform (u 7) 0 360,
      speed_x := uniform (u 8) (-1.5) 1.5,
      speed_y := uniform (u 9) 1.5 3.5,
      color := color, life := life, max_life := life,
      rotation_speed := uniform (u 10) (-6) 6,
      phase := phase, base_alpha := a }

/-- `ParticleOverlayGenerator._init_particles` (lines 274-279): spawns
`particle_count` initial particles. `U` gives each slot its oracle. -/
def init_particles (g : ParticleOverlayGenerator) (U : ℕ → ℕ → ℚ)
    (total_frames : ℚ) : List Particle :=
  (List.range g.particle_count).map
    (fun i => spawn_particle g (U i) total_frames true)

/-- The per-slot body of `ParticleOverlayGenerator._update_particles`
(lines 355-415): age the particle, move and fade it per type, and
replace the slot by a fresh spawn of the same type when the lifetime is
exhausted or the particle left the visible area. -/
def update_one (g : ParticleOverlayGenerator) (sin : ℚ → ℚ) (u : ℕ → ℚ)
    (total_frames : ℚ) (p0 : Particle) : Particle :=
  let p : Particle := { p0 with life := p0.life - 1,
                                phase := p0.phase + 0.08,
                                rotation := p0.rotation + p0.rotation_speed }
  match g.particle_type with
  | .hearts =>
    let p : Particle := { p with y := p.y + p.speed_y,
                                 x := p.x + sin p.phase * 1.2 }
    let progress := 1 - p.life / p.max_life
    let alpha :=
      if progress < 0.12 then p.base_alpha * (progress / 0.12)
      else if progress > 0.88 then p.base_alpha * ((1 - progress) / 0.12)
      else p.base_alpha
    let p : Particle := { p with alpha := alpha }
    if p.life ≤ 0 ∨ p.y < -p.size * 2 then
      spawn_particle g u total_frames false
    else p
  | .sparkles =>
    let progress := 1 - p.life / p.max_life
    let alpha :=
      if progress < 0.2 then p.base_alpha * (progress / 0.2)
      else if progress > 0.8 then p.base_alpha * ((1 - progress) / 0.2)
      else p.base_alpha * (0.8 + 0.2 * sin (p.phase * 3))
    let size0 := p.size * (0.97 + 0.06 * sin (p.phase * 2))
    let p : Particle := { p with alpha := alpha,
                                 size := max 5 (min 35 size0) }
    if p.life ≤ 0 then spawn_particle g u total_frames false else p
  | .petals =>
    let p : Particle := { p with x := p.x + p.speed_x + sin p.phase * 0.6,
                                 y := p.y + p.speed_y }
    let progress := 1 - p.life / p.max_life
    let alpha :=
      if progress < 0.1 then p.base_alpha * (progress / 0.1)
      else if progress > 0.9 then p.base_alpha * ((1 - progress) / 0.1)
      else p.base_alpha
    let p : Particle := { p with alpha := alpha }
    if p.life ≤ 0 ∨ p.y > (g.height : ℚ) + p.size * 2 then
      spawn_particle g u total_frames false
    else p
  | _ =>
    let p : Particle := { p with x := p.x + p.speed_x + sin (p.phase * 1.5) * 0.5,
                                 y := p.y + p.speed_y }
    let p : Particle := { p with speed_x := p.speed_x * 0.999 }
    let p : Particle :=
      if p.y > (g.height : ℚ) * 0.85 then { p with alpha := p.alpha * 0.95 }
      else p
    if p.life ≤ 0 ∨ p.y > (g.height : ℚ) + p.size * 2 then
      spawn_particle g u total_frames false
    else p

/-- `ParticleOverlayGenerator._update_particles` (lines 355-415):
updates every slot in place (`particles[i] = ...` on respawn), so the
list structure is preserved slot for slot. `frame_num` is threaded like
the Python signature though the body only uses `total_frames`. -/
def update_particles (g : ParticleOverlayGenerator) (sin : ℚ → ℚ)
    (U : ℕ → ℕ → ℚ) (frame_num : ℕ) (total_frames : ℚ)
    (particles : List Particle) : List Particle :=
  particles.mapIdx (fun i p => update_one g sin (U i) total_frames p)

/-- The pre-computed `transparent_bytes = b'\x00' * (width * height * 4)`
written for every inactive frame (line 215). -/
def transparent_bytes (g : ParticleOverlayGenerator) : List ℕ :=
  List.replicate (g.width * g.height * 4) 0

/-- One frame written to the encoder pipe: either the pre-computed
fully-transparent bytes, or a rendering of the given particle list. -/
inductive EmittedFrame where
  | transparentFrame
  | renderedFrame (particles : List Particle)
deriving DecidableEq

/-- The loop-carried state of `generate_overlay_video` (lines 217-219):
the current particle pool (`None` before the first active frame) and the
index of the window it belongs to (`-1` initially). -/
structure LoopState where
  particles : Option (List Particle)
  current_window_idx : ℤ
deriving DecidableEq

/-- The scan over `active_frame_ranges` (lines 225-233): the first range
containing the frame, with its index, start and end. -/
def findWindow : List (ℤ × ℤ) → ℤ → ℕ → Option (ℕ × ℤ × ℤ)
  | [], _, _ => none
  | (s, e) :: rest, fn, idx =>
    if s ≤ fn ∧ fn < e then some (idx, s, e)
    else findWindow rest fn (idx + 1)

/-- The frame-level active ranges computed from `active_windows` (lines
181-186): `(int(start*fps), min(int(end*fps), total_frames))` each. -/
def activeFrameRanges (g : ParticleOverlayGenerator)
    (active_windows : List (ℚ × ℚ)) (total_frames : ℤ) : List (ℤ × ℤ) :=
  active_windows.map
    (fun se => (pyInt (se.1 * (g.fps : ℚ)),
                min (pyInt (se.2 * (g.fps : ℚ))) total_frames))

/-- One iteration of the frame loop of `generate_overlay_video` (lines
222-254): an inactive frame writes the transparent bytes and leaves the
particle state untouched; an active frame re-initializes the pool when
entering a new window, updates the particles and renders them. `U` is
this frame's random oracle (`U 0` for initialization draws, `U 1` for
respawn draws). -/
def frameStep (g : ParticleOverlayGenerator) (sin : ℚ → ℚ)
    (U : ℕ → ℕ → ℕ → ℚ) (ranges : Option (List (ℤ × ℤ)))
    (total_frames : ℤ) (st : LoopState) (frame_num : ℕ) :
    LoopState × EmittedFrame :=
  match ranges with
  | some rs =>
    match findWindow rs (frame_num : ℤ) 0 with
    | none => (st, .transparentFrame)
    | some (window_idx, window_start, window_end) =>
      let window_length := window_end - window_start
      let particles0 :=
        if (window_idx : ℤ) ≠ st.current_window_idx then
          init_particles g (U 0) (window_length : ℚ)
        else st.particles.getD []
      let local_frame := ((frame_num : ℤ) - window_start).toNat
      let particles1 := update_particles g sin (U 1) local_frame
        (window_length : ℚ) particles0
      ({ particles := some particles1,
         current_window_idx := (window_idx : ℤ) },
       .renderedFrame particles1)
  | none =>
    let particles0 :=
      match st.particles with
      | none => init_particles g (U 0) (total_frames : ℚ)
      | some ps => ps
    let particles1 := update_particles g sin (U 1) frame_num
      (total_frames : ℚ) particles0
    ({ st with particles := some particles1 }, .renderedFrame particles1)

/-- The frame loop: one emitted frame per frame number, threading the
loop state. `master` gives each frame its oracle. -/
def runLoop (g : ParticleOverlayGenerator) (sin : ℚ → ℚ)
    (master : ℕ → ℕ → ℕ → ℕ → ℚ) (ranges : Option (List (ℤ × ℤ)))
    (total_frames : ℤ) : LoopState → List ℕ → List EmittedFrame
  | _, [] => []
  | st, fn :: rest =>
    let step := frameStep g sin (master fn) ranges total_frames st fn
    step.2 :: runLoop g sin master ranges total_frames step.1 rest

/-- `ParticleOverlayGenerator.generate_overlay_video` (lines 158-264),
restricted to the frames piped to the encoder: `total_frames =
int(duration * fps)` frames are emitted unless that count is
non-positive (then the function returns early with none); a non-empty
`active_windows` list is converted to frame ranges, while `None` or an
empty list (both falsy in Python) render every frame. -/
def generate_overlay_frames (g : ParticleOverlayGenerator) (sin : ℚ → ℚ)
    (master : ℕ → ℕ → ℕ → ℕ → ℚ) (duration : ℚ)
    (active_windows : Option (List (ℚ × ℚ))) : List EmittedFrame :=
  let total_frames := pyInt (duration * (g.fps : ℚ))
  if total_frames ≤ 0 then []
  else
    let ranges :=
      match active_windows with
      | some ws =>
        if ws = [] then none else some (activeFrameRanges g ws total_frames)
      | none => none
    runLoop g sin master ranges total_frames ⟨none, -1⟩
      (List.range total_frames.toNat)

/-- The loop emits exactly one frame per frame number. -/
theorem runLoop_length (g : ParticleOverlayGenerator) (sin : ℚ → ℚ)
    (master : ℕ → ℕ → ℕ → ℕ → ℚ) (ranges : Option (List (ℤ × ℤ)))
    (total_frames : ℤ) :
    ∀ (l : List ℕ) (st : LoopState),
      (runLoop g sin master ranges total_frames st l).length = l.length := by
  intro l
  induction l with
  | nil => intro st; rfl
  | cons fn rest ih =>
    intro st
    simp only [runLoop, List.length_cons, ih]

/-- When the step at the `i`-th frame number emits the same frame for
every incoming state, that frame is the loop's `i`-th output. -/
theorem runLoop_getElem_of_step_const (g : ParticleOverlayGenerator)
    (sin : ℚ → ℚ) (master : ℕ → ℕ → ℕ → ℕ → ℚ)
    (ranges : Option (List (ℤ × ℤ))) (total_frames : ℤ) :
    ∀ (l : List ℕ) (st : LoopState) (i : ℕ) (e : EmittedFrame),
      (∀ fn, l[i]? = some fn →
        ∀ st', (frameStep g sin (master fn) ranges total_frames st' fn).2 = e) →
      i < l.length →
      (runLoop g sin master ranges total_frames st l)[i]? = some e := by
  intro l
  induction l with
  | nil =>
    intro st i e _ hi
    simp at hi
  | cons fn rest ih =>
    intro st i e hstep hi
    cases i with
    | zero =>
      simp only [runLoop, List.getElem?_cons_zero, Option.some.injEq]
      exact hstep fn (by simp) st
    | succ j =>
      simp only [runLoop, List.getElem?_cons_succ]
      apply ih _ j e
      · intro fn2 hfn2
        exact hstep fn2 (by simpa using hfn2)
      · simpa using hi

/-- A frame number outside every range is found in none of them. -/
theorem findWindow_eq_none (fn : ℤ) :
    ∀ (rs : List (ℤ × ℤ)), (∀ r ∈ rs, ¬ (r.1 ≤ fn ∧ fn < r.2)) →
      ∀ idx, findWindow rs fn idx = none := by
  intro rs
  induction rs with
  | nil => intro _ _; rfl
  | cons r rest ih =>
    intro h idx
    obtain ⟨s, e⟩ := r
    rw [findWindow, if_neg (h (s, e) (List.mem_cons_self _ _))]
    exact ih (fun r2 hr2 => h r2 (List.mem_cons_of_mem _ hr2)) (idx + 1)

/-- A frame outside every active range is emitted as the transparent
frame and leaves the loop state (hence the particle pool) untouched: no
initialization, update or rendering runs for it. -/
theorem frameStep_inactive_transparent (g : ParticleOverlayGenerator)
    (sin : ℚ → ℚ) (U : ℕ → ℕ → ℕ → ℚ) (rs : List (ℤ × ℤ))
    (total_frames : ℤ) (st : LoopState) (fn : ℕ)
    (h : ∀ r ∈ rs, ¬ (r.1 ≤ (fn : ℤ) ∧ (fn : ℤ) < r.2)) :
    frameStep g sin U (some rs) total_frames st fn
      = (st, .transparentFrame) := by
  simp only [frameStep, findWindow_eq_none (fn : ℤ) rs h 0]

/-- C3 (amended): for every duration, generator and random outcome, the
simulator emits exactly `int(duration × fps)` frames — Python's `int`
truncation, not `round` — and zero frames when that count is
non-positive. -/
theorem particle_overlay_emits_truncated_frame_count
    (g : ParticleOverlayGenerator) (sin : ℚ → ℚ)
    (master : ℕ → ℕ → ℕ → ℕ → ℚ) (duration : ℚ)
    (active_windows : Option (List (ℚ × ℚ))) :
    (generate_overlay_frames g sin master duration active_windows).length
      = (pyInt (duration * (g.fps : ℚ))).toNat := by
  simp only [generate_overlay_frames]
  split
  · rename_i htot
    rw [List.length_nil, Int.toNat_of_nonpos htot]
  · rw [runLoop_length, List.length_range]

/-- A small concrete generator (2×2 resolution, 1 fps, hearts) used to
instantiate the particle-overlay theorems. -/
def overlayGenEx : ParticleOverlayGenerator :=
  ⟨2, 2, 1, .hearts, 1, 15, [(220, 20, 60)]⟩

/-- C3 counterexample: at duration 4.9s and 1 fps the simulator emits
`int(4.9) = 4` frames, while the claimed `round(duration × fps)` is 5
(the window list keeps every frame inactive; the count does not depend
on it). -/
theorem particle_overlay_frame_count_not_round :
    (generate_overlay_frames overlayGenEx (fun _ => 0)
        (fun _ _ _ _ => 0) (49/10) (some [(100, 200)])).length = 4 ∧
      pyRound ((49/10 : ℚ) * (overlayGenEx.fps : ℚ)) = 5 ∧
      (4 : ℤ) ≠ 5 := by
  refine ⟨?_, ?_, by decide⟩
  · simp only [generate_overlay_frames]
    split
    · rename_i htot
      exfalso
      rw [pyInt] at htot
      norm_num [overlayGenEx] at htot
    · rw [runLoop_length, List.length_range, pyInt]
      norm_num [overlayGenEx]
      decide
  · rw [pyRound]
    norm_num [overlayGenEx]

/-- The particle pool after the initial spawn and `k` whole-pool
updates inside one window. -/
def particlesAfterUpdates (g : ParticleOverlayGenerator) (sin : ℚ → ℚ)
    (master : ℕ → ℕ → ℕ → ℚ) (U0 : ℕ → ℕ → ℚ) (total_frames : ℚ) :
    ℕ → List Particle
  | 0 => init_particles g U0 total_frames
  | k + 1 => update_particles g sin (master k) k total_frames
      (particlesAfterUpdates g sin master U0 total_frames k)

/-- C8: the particle pool size is invariant: `_init_particles` creates
exactly `particle_count` particles, `_update_particles` maps each slot
to either its updated particle or a fresh spawn (one-for-one), so after
the initial spawn and any number of per-frame updates the pool still
holds exactly `particle_count` particles, for every type and random
outcome. -/
theorem particle_pool_size_invariant (g : ParticleOverlayGenerator)
    (sin : ℚ → ℚ) (master : ℕ → ℕ → ℕ → ℚ) (U0 : ℕ → ℕ → ℚ)
    (total_frames : ℚ) :
    (init_particles g U0 total_frames).length = g.particle_count ∧
    (∀ (U : ℕ → ℕ → ℚ) (frame_num : ℕ) (particles : List Particle),
      (update_particles g sin U frame_num total_frames particles).length
        = particles.length) ∧
    (∀ k, (particlesAfterUpdates g sin master U0 total_frames k).length
        = g.particle_count) := by
  have hinit : (init_particles g U0 total_frames).length = g.particle_count := by
    rw [init_particles, List.length_map, List.length_range]
  have hupd : ∀ (U : ℕ → ℕ → ℚ) (frame_num : ℕ) (particles : List Particle),
      (update_particles g sin U frame_num total_frames particles).length
        = particles.length := by
    intro U frame_num particles
    rw [update_particles, List.length_mapIdx]
  refine ⟨hinit, hupd, ?_⟩
  intro k
  induction k with
  | zero => exact hinit
  | succ k ih => rw [particlesAfterUpdates, hupd, ih]

/-- C7: with a non-empty window list, every frame whose index lies
outside the union of the active frame ranges is emitted as the
pre-computed fully transparent frame (whose RGBA bytes are all zero),
and the step for such a frame performs no particle initialization,
update or rendering: it returns every incoming loop state unchanged. -/
theorem particle_overlay_inactive_frames_transparent
    (g : ParticleOverlayGenerator) (sin : ℚ → ℚ)
    (master : ℕ → ℕ → ℕ → ℕ → ℚ) (duration : ℚ) (ws : List (ℚ × ℚ))
    (hws : ws ≠ []) (fn : ℕ)
    (hfn : fn < (generate_overlay_frames g sin master duration
      (some ws)).length)
    (hout : ∀ r ∈ activeFrameRanges g ws (pyInt (duration * (g.fps : ℚ))),
      ¬ (r.1 ≤ (fn : ℤ) ∧ (fn : ℤ) < r.2)) :
    (generate_overlay_frames g sin master duration (some ws))[fn]?
        = some .transparentFrame ∧
      (∀ st, frameStep g sin (master fn)
          (some (activeFrameRanges g ws (pyInt (duration * (g.fps : ℚ)))))
          (pyInt (duration * (g.fps : ℚ))) st fn
        = (st, .transparentFrame)) ∧
      ∀ b ∈ transparent_bytes g, b = 0 := by
  have hstep : ∀ st, frameStep g sin (master fn)
      (some (activeFrameRanges g ws (pyInt (duration * (g.fps : ℚ)))))
      (pyInt (duration * (g.fps : ℚ))) st fn
      = (st, .transparentFrame) := by
    intro st
    exact frameStep_inactive_transparent g sin (master fn) _ _ st fn hout
  refine ⟨?_, hstep, ?_⟩
  · by_cases htot : pyInt (duration * (g.fps : ℚ)) ≤ 0
    · exfalso
      have hempty : generate_overlay_frames g sin master duration (some ws)
          = [] := by
        simp only [generate_overlay_frames]
        rw [if_pos htot]
      rw [hempty] at hfn
      simp at hfn
    · have hform : generate_overlay_frames g sin master duration (some ws)
          = runLoop g sin master
              (some (activeFrameRanges g ws (pyInt (duration * (g.fps : ℚ)))))
              (pyInt (duration * (g.fps : ℚ))) ⟨none, -1⟩
              (List.range (pyInt (duration * (g.fps : ℚ))).toNat) := by
        simp only [generate_overlay_frames]
        rw [if_neg htot]
        rw [if_neg hws]
      have hlen : fn < (List.range
          (pyInt (duration * (g.fps : ℚ))).toNat).length := by
        rw [List.length_range]
        have := hfn
        rw [hform, runLoop_length, List.length_range] at this
        exact this
      rw [hform]
      apply runLoop_getElem_of_step_const
      · intro fn2 hfn2 st'
        have : fn2 = fn := by
          rw [List.getElem?_range (by simpa using hlen)] at hfn2
          exact (Option.some.injEq _ _ ▸ hfn2).symm
        rw [this, hstep st']
      · exact hlen
  · intro b hb
    rw [transparent_bytes] at hb
    exact List.eq_of_mem_replicate hb

/-- Witness for C7: duration 2s at 1 fps with the single window
`(2, 3)`: the active range collapses to `[2, 2)`, so frame 0 lies
outside every range and is emitted transparent. -/
theorem particle_overlay_inactive_frames_transparent_witness :
    (generate_overlay_frames overlayGenEx (fun _ => 0) (fun _ _ _ _ => 0) 2
        (some [(2, 3)]))[0]? = some EmittedFrame.transparentFrame ∧
      (∀ st, frameStep overlayGenEx (fun _ => 0)
          ((fun _ _ _ _ => (0 : ℚ)) 0)
          (some (activeFrameRanges overlayGenEx [(2, 3)]
            (pyInt (2 * (overlayGenEx.fps : ℚ)))))
          (pyInt (2 * (overlayGenEx.fps : ℚ))) st 0
        = (st, EmittedFrame.transparentFrame)) ∧
      ∀ b ∈ transparent_bytes overlayGenEx, b = 0 := by
  apply particle_overlay_inactive_frames_transparent
  · intro h
    exact List.noConfusion h
  · -- frame 0 is within the 2 emitted frames
    have hlen : (generate_overlay_frames overlayGenEx (fun _ => 0)
        (fun _ _ _ _ => 0) 2 (some [(2, 3)])).length = 2 := by
      simp only [generate_overlay_frames]
      split
      · rename_i htot
        exfalso
        rw [pyInt] at htot
        norm_num [overlayGenEx] at htot
      · rw [runLoop_length, List.length_range, pyInt]
        norm_num [overlayGenEx]
        decide
    rw [hlen]
    norm_num
  · intro r hr
    simp only [activeFrameRanges, List.map_cons, List.map_nil,
      List.mem_singleton] at hr
    subst hr
    intro hcontra
    have h1 := hcontra.1
    rw [pyInt] at h1
    norm_num [overlayGenEx] at h1

/-! ## Segment rendering (`src/segment_renderer.py`) -/

/-- What `SegmentRenderer.render_segment` observes of the external
encoder run: its exit status, whether the output file exists, and the
frame count and duration measured from the output. -/
structure RenderOutcome where
  returncode : ℤ
  output_exists : Bool
  frame_count : ℕ
  actual_duration : ℚ
deriving DecidableEq

/-- The log messages of `render_segment`'s verification block. -/
inductive RenderLog where
  | completedInfo
  | frameCountMismatchError
  | durationDiffWarning
  | durationMatchesInfo
  | outputMissingError
  | nonzeroExitError
deriving DecidableEq

/-- `SegmentRenderer.render_segment` (src/segment_renderer.py lines
140-178), after the external engine completes: non-zero exit status or a
missing output file fail the segment; otherwise the expected frame count
`int(duration * fps)` and the actual duration are compared — a frame
difference over 10 logs an error, `elif` a duration difference over 0.5s
logs a warning — and the segment succeeds regardless of either
mismatch. -/
def render_segment (fps : ℕ) (duration : ℚ) (o : RenderOutcome) :
    Bool × List RenderLog :=
  if o.returncode = 0 then
    if o.output_exists then
      let expected_frames := pyInt (duration * (fps : ℚ))
      let frame_diff := |(o.frame_count : ℤ) - expected_frames|
      let duration_diff := |o.actual_duration - duration|
      let checks :=
        if frame_diff > 10 then [RenderLog.frameCountMismatchError]
        else if duration_diff > 1/2 then [RenderLog.durationDiffWarning]
        else [RenderLog.durationMatchesInfo]
      (true, RenderLog.completedInfo :: checks)
    else (false, [RenderLog.outputMissingError])
  else (false, [RenderLog.nonzeroExitError])

/-- C9 (amended): `render_segment` fails exactly when the engine exits
non-zero or the output file is missing; with a successful run, a frame
mismatch over 10 frames logs an error, and a duration mismatch over
0.5s logs a warning — but, because of the `elif`, only when the frame
count was within tolerance; neither mismatch changes the returned
success. -/
theorem render_segment_failure_and_mismatch_logs (fps : ℕ)
    (duration : ℚ) (o : RenderOutcome) :
    ((render_segment fps duration o).1 = true ↔
      (o.returncode = 0 ∧ o.output_exists = true)) ∧
    (o.returncode = 0 → o.output_exists = true →
      10 < |(o.frame_count : ℤ) - pyInt (duration * (fps : ℚ))| →
      RenderLog.frameCountMismatchError ∈ (render_segment fps duration o).2 ∧
        (render_segment fps duration o).1 = true) ∧
    (o.returncode = 0 → o.output_exists = true →
      |(o.frame_count : ℤ) - pyInt (duration * (fps : ℚ))| ≤ 10 →
      1/2 < |o.actual_duration - duration| →
      RenderLog.durationDiffWarning ∈ (render_segment fps duration o).2 ∧
        (render_segment fps duration o).1 = true) := by
  refine ⟨?_, ?_, ?_⟩
  · constructor
    · intro h
      by_cases hrc : o.returncode = 0
      · refine ⟨hrc, ?_⟩
        by_cases hex : o.output_exists = true
        · exact hex
        · exfalso
          simp only [render_segment, if_pos hrc, if_neg hex] at h
          exact Bool.false_ne_true h
      · exfalso
        simp only [render_segment, if_neg hrc] at h
        exact Bool.false_ne_true h
    · rintro ⟨hrc, hex⟩
      simp only [render_segment, if_pos hrc, if_pos hex]
  · intro hrc hex hframe
    have hgt : |(o.frame_count : ℤ) - pyInt (duration * (fps : ℚ))| > 10 :=
      hframe
    simp only [render_segment, if_pos hrc, if_pos hex, if_pos hgt]
    simp
  · intro hrc hex hframe hdur
    have hnot : ¬ |(o.frame_count : ℤ) - pyInt (duration * (fps : ℚ))| > 10 :=
      not_lt.mpr hframe
    have hgt : |o.actual_duration - duration| > 1/2 := hdur
    simp only [render_segment, if_pos hrc, if_pos hex, if_neg hnot,
      if_pos hgt]
    simp

/-- C9 counterexample: 30 fps, expected 10s segment, engine exit 0,
output present, but 0 frames and 0s measured: the frame difference (300)
exceeds 10 AND the duration difference (10s) exceeds 0.5s, yet the
`elif` logs only the frame-count error and no duration warning — the
claim that a duration mismatch over 0.5s is logged as a warning fails
here — while the call still returns success. -/
theorem render_segment_duration_warning_suppressed :
    (render_segment 30 10 ⟨0, true, 0, 0⟩).1 = true ∧
      RenderLog.frameCountMismatchError
        ∈ (render_segment 30 10 ⟨0, true, 0, 0⟩).2 ∧
      ¬ RenderLog.durationDiffWarning
        ∈ (render_segment 30 10 ⟨0, true, 0, 0⟩).2 ∧
      (1/2 : ℚ) < |(0 : ℚ) - 10| := by
  have hframe : ((10 : ℤ) < |((0 : ℕ) : ℤ) - pyInt ((10 : ℚ) * ((30 : ℕ) : ℚ))|) := by
    rw [pyInt]
    norm_num
  refine ⟨?_, ?_, ?_, by norm_num⟩ <;>
    simp only [render_segment, if_pos rfl, if_pos hframe] <;> simp
